import Mathlib

/-!
Verification of the AUD computable-phenotype pipeline.

Shallow embedding of the two scripts of the repository:
* `Population_identified_keywords.py` — keyword-based note classification with
  suppression filtering, per-partition checkpointing and a final merge;
* `Population_identified_ICD.py` — structured-code cohort filtering by ICD
  codes and visit-count thresholds.

Keyword regexes are loaded from a CSV that is not part of the repository, so
keyword matchers are modelled as abstract boolean predicates on sentences.
The three suppression regexes are module-level constants of the source and are
embedded concretely: each is a case-insensitive, word-boundary-delimited
alternation of fixed words/phrases, mirroring
`\b(?:w1|w2|...)\b` compiled with `re.IGNORECASE`.
-/

set_option maxRecDepth 4000

/-- A compiled text pattern, modelled extensionally: does it match (via
`pattern.search`) the given sentence? -/
abbrev Pattern := String → Bool

/-- Python regex word character (`\w`, ASCII part): alphanumeric or underscore. -/
def isWordChar (c : Char) : Bool := c.isAlphanum || c == '_'

/-- Case-insensitive character comparison (effect of `re.IGNORECASE`). -/
def charMatchCI (a b : Char) : Bool := a.toLower == b.toLower

/-- Does `phrase` occur in `text` starting at index `i`, case-insensitively and
delimited by word boundaries (`\b` on each side)? -/
def matchPhraseAt (phrase text : List Char) (i : Nat) : Bool :=
  let seg := (text.drop i).take phrase.length
  seg.length == phrase.length &&
    (List.zip seg phrase).all (fun pr => charMatchCI pr.1 pr.2) &&
    (i == 0 || !isWordChar (text.getD (i - 1) ' ')) &&
    !isWordChar (text.getD (i + phrase.length) ' ')

/-- `re.compile(r'\b(?:phrase)\b', re.IGNORECASE).search(sentence)` for a single
alternative: does the phrase occur anywhere in the sentence? -/
def wbSearch (phrase sentence : String) : Bool :=
  (List.range (sentence.data.length + 1)).any (fun i =>
    matchPhraseAt phrase.data sentence.data i)

/-- Alternatives of the source's `negation_pattern` regex. -/
def negation_words : List String :=
  ["no", "not", "never", "denies", "without", "negative", "free of", "absent",
   "ruled out"]

/-- `negation_pattern.search` from the source. -/
def negation_pattern : Pattern := fun s => negation_words.any (fun w => wbSearch w s)

/-- Alternatives of the source's `context_filter_pattern` regex. -/
def context_filter_words : List String :=
  ["if", "recommend", "suggest", "advise", "should", "limiting", "avoid",
   "consider", "encourage", "abstain", "family member", "family history",
   "mother", "father", "parent", "sibling", "relative"]

/-- `context_filter_pattern.search` from the source. -/
def context_filter_pattern : Pattern := fun s =>
  context_filter_words.any (fun w => wbSearch w s)

/-- Alternatives of the source's `legal_admin_filter_pattern` regex. -/
def legal_admin_filter_words : List String :=
  ["authorization", "release", "consent", "information", "disclosure",
   "permission", "record", "agreement", "form", "policy", "AUDIT"]

/-- `legal_admin_filter_pattern.search` from the source. -/
def legal_admin_filter_pattern : Pattern := fun s =>
  legal_admin_filter_words.any (fun w => wbSearch w s)

/-- `check_sentence_for_keywords` from the source: suppression checks in order
(negation, context, legal/administrative), then a full scan of all keyword
patterns collecting matched roots into a set; validity is non-emptiness. -/
def check_sentence_for_keywords (sentence : String)
    (aud_patterns : List (Pattern × String)) (negP ctxP legalP : Pattern) :
    Finset String × Bool :=
  if negP sentence then (∅, false)
  else if ctxP sentence then (∅, false)
  else if legalP sentence then (∅, false)
  else
    let matched_roots :=
      ((aud_patterns.filter (fun pr => pr.1 sentence)).map Prod.snd).toFinset
    (matched_roots, decide (0 < matched_roots.card))

/-- Worker for `splitRuns`: `cur` holds the current piece reversed, `skipping`
records whether we are inside a separator run (whose further separator
characters are absorbed into the same boundary). -/
def splitAux (p : Char → Bool) : List Char → List Char → Bool → List (List Char)
  | [], cur, _ => [cur.reverse]
  | c :: cs, cur, skipping =>
    if p c then
      if skipping then splitAux p cs [] true
      else cur.reverse :: splitAux p cs [] true
    else splitAux p cs (c :: cur) false

/-- `re.split('[...]+', text)`: split on maximal runs of separator characters,
keeping an empty piece at a leading or trailing separator run (as Python does),
but producing no empty pieces between adjacent separators. -/
def splitRuns (p : Char → Bool) (l : List Char) : List (List Char) :=
  splitAux p l [] false

/-- Sentence terminator characters of `re.split(r'[.!?;:\n]+', text)`. -/
def isTerm (c : Char) : Bool :=
  c == '.' || c == '!' || c == '?' || c == ';' || c == ':' || c == '\n'

/-- `re.split(r'[.!?;:\n]+', text)` from `process_note_text`. -/
def sentencesOf (text : String) : List String :=
  (splitRuns isTerm text.data).map (fun cs => String.mk cs)

/-- Python `str.strip()`: remove leading and trailing whitespace. -/
def pyStrip (s : String) : String :=
  String.mk (((s.data.dropWhile Char.isWhitespace).reverse.dropWhile
    Char.isWhitespace).reverse)

/-- Return value of `process_note_text`: `(aud_roots, aud_roots_count,
matched_sentences)`. -/
structure NoteOutput where
  aud_roots : List String
  aud_roots_count : Nat
  matched_sentences : List String
deriving Repr, DecidableEq

/-- Enumeration of a Python `set` into a list, as performed by `list(s)`.
Python guarantees only that the result enumerates the elements without
duplicates; the order depends on interpreter hash state. -/
abbrev SetEnum := Finset String → List String

/-- A possible behaviour of Python's `list(s)` on a set: it enumerates exactly
the elements, each once. -/
def ValidEnum (enum : SetEnum) : Prop :=
  ∀ s : Finset String, (enum s).Nodup ∧ (enum s).toFinset = s

/-- Body of the per-sentence accumulation in `process_note_text`, after the
length guard: classify the sentence, and on a valid non-empty match union the
roots into the running set and append the sentence. -/
def scanStep (aud_patterns : List (Pattern × String))
    (acc : Finset String × List String) (sentence : String) :
    Finset String × List String :=
  let cr := check_sentence_for_keywords sentence aud_patterns negation_pattern
    context_filter_pattern legal_admin_filter_pattern
  if cr.2 = true ∧ cr.1.Nonempty then (acc.1 ∪ cr.1, acc.2 ++ [sentence])
  else acc

/-- One loop iteration of `process_note_text`: strip the raw sentence, skip it
when empty or shorter than 10 characters, otherwise classify and accumulate. -/
def noteStep (aud_patterns : List (Pattern × String))
    (acc : Finset String × List String) (raw : String) :
    Finset String × List String :=
  let sentence := pyStrip raw
  if sentence = "" ∨ sentence.length < 10 then acc
  else scanStep aud_patterns acc sentence

/-- The sentence loop of `process_note_text` on a non-empty text. -/
def noteScan (aud_patterns : List (Pattern × String)) (text : String) :
    Finset String × List String :=
  (sentencesOf text).foldl (noteStep aud_patterns) (∅, [])

/-- `process_note_text` from the source.  `none` models a NaN `report_text`
(`pd.isna`), and the empty string is rejected by `not text`. -/
def process_note_text (enum : SetEnum) (aud_patterns : List (Pattern × String))
    (text : Option String) : NoteOutput :=
  match text with
  | none => ⟨[], 0, []⟩
  | some t =>
    if t = "" then ⟨[], 0, []⟩
    else
      let res := noteScan aud_patterns t
      ⟨enum res.1, res.1.card, res.2⟩

/-- A keyword matcher used in concrete instantiations: a case-insensitive
word-boundary search for a fixed phrase. -/
def kwPat (w : String) : Pattern := fun s => wbSearch w s

/-- Executable lexicographic comparison of character lists (by code point). -/
def strLeb : List Char → List Char → Bool
  | [], _ => true
  | _ :: _, [] => false
  | a :: as, b :: bs =>
    if a.toNat = b.toNat then strLeb as bs else decide (a.toNat ≤ b.toNat)

theorem char_toNat_inj {a b : Char} (h : a.toNat = b.toNat) : a = b := by
  apply Char.eq_of_val_eq
  apply UInt32.eq_of_toBitVec_eq
  have h2 : a.val.toNat = b.val.toNat := h
  exact BitVec.toNat_injective h2

theorem strLeb_total : ∀ x y : List Char, strLeb x y = true ∨ strLeb y x = true := by
  intro x
  induction x with
  | nil => intro y; left; rfl
  | cons a as ih =>
    intro y
    cases y with
    | nil => right; rfl
    | cons b bs =>
      simp only [strLeb]
      by_cases h : a.toNat = b.toNat
      · rw [if_pos h, if_pos h.symm]
        exact ih bs
      · rw [if_neg h, if_neg (fun hh => h hh.symm)]
        rcases Nat.le_total a.toNat b.toNat with hle | hle
        · left; simpa using hle
        · right; simpa using hle

theorem strLeb_trans : ∀ x y z : List Char,
    strLeb x y = true → strLeb y z = true → strLeb x z = true := by
  intro x
  induction x with
  | nil => intro y z _ _; rfl
  | cons a as ih =>
    intro y z hxy hyz
    cases y with
    | nil => simp [strLeb] at hxy
    | cons b bs =>
      cases z with
      | nil => simp [strLeb] at hyz
      | cons c cs =>
        simp only [strLeb] at hxy hyz ⊢
        by_cases h1 : a.toNat = b.toNat
        · rw [if_pos h1] at hxy
          by_cases h2 : b.toNat = c.toNat
          · rw [if_pos h2] at hyz
            rw [if_pos (h1.trans h2)]
            exact ih bs cs hxy hyz
          · rw [if_neg h2] at hyz
            rw [if_neg (h1 ▸ h2)]
            simpa [h1] using hyz
        · rw [if_neg h1] at hxy
          simp only [decide_eq_true_eq] at hxy
          by_cases h2 : b.toNat = c.toNat
          · rw [if_pos h2] at hyz
            rw [if_neg (fun hh => h1 (hh.trans h2.symm))]
            simp only [decide_eq_true_eq]
            omega
          · rw [if_neg h2] at hyz
            simp only [decide_eq_true_eq] at hyz
            have hac : a.toNat ≠ c.toNat := by omega
            rw [if_neg hac]
            simp only [decide_eq_true_eq]
            omega

theorem strLeb_antisymm : ∀ x y : List Char,
    strLeb x y = true → strLeb y x = true → x = y := by
  intro x
  induction x with
  | nil =>
    intro y _ hyx
    cases y with
    | nil => rfl
    | cons b bs => simp [strLeb] at hyx
  | cons a as ih =>
    intro y hxy hyx
    cases y with
    | nil => simp [strLeb] at hxy
    | cons b bs =>
      simp only [strLeb] at hxy hyx
      by_cases h : a.toNat = b.toNat
      · rw [if_pos h] at hxy
        rw [if_pos h.symm] at hyx
        rw [char_toNat_inj h, ih bs hxy hyx]
      · rw [if_neg h] at hxy
        rw [if_neg (fun hh => h hh.symm)] at hyx
        simp only [decide_eq_true_eq] at hxy hyx
        omega

/-- An executable total order on strings (lexicographic by code point). -/
def strLe (a b : String) : Prop := strLeb a.data b.data = true

instance : DecidableRel strLe := fun a b =>
  inferInstanceAs (Decidable (strLeb a.data b.data = true))

instance : IsTotal String strLe := ⟨fun a b => strLeb_total a.data b.data⟩

instance : IsTrans String strLe :=
  ⟨fun a b c hab hbc => strLeb_trans a.data b.data c.data hab hbc⟩

instance : IsAntisymm String strLe :=
  ⟨fun a b hab hba => by
    have h := strLeb_antisymm a.data b.data hab hba
    cases a
    cases b
    exact congrArg String.mk h⟩

/-- Sort the elements of a multiset of strings into an ascending list. -/
def msortStr (m : Multiset String) : List String :=
  Quot.liftOn m (fun l => l.insertionSort strLe) (fun _ _ h => by
    refine List.eq_of_perm_of_sorted ?_ (List.sorted_insertionSort strLe _)
      (List.sorted_insertionSort strLe _)
    exact ((List.perm_insertionSort _ _).trans h).trans
      (List.perm_insertionSort _ _).symm)

theorem msortStr_coe (m : Multiset String) :
    (msortStr m : Multiset String) = m := by
  induction m using Quotient.inductionOn with
  | h l => exact Multiset.coe_eq_coe.mpr (List.perm_insertionSort _ l)

/-- Enumerate a set in ascending order: one possible behaviour of `list(s)`. -/
def enumSorted : SetEnum := fun s => msortStr s.val

/-- Enumerate a set in descending order: another possible behaviour of
`list(s)`. -/
def enumSortedRev : SetEnum := fun s => (msortStr s.val).reverse

theorem enum_coe_val (s : Finset String) :
    (enumSorted s : Multiset String) = s.val := msortStr_coe s.val

theorem validEnumSorted : ValidEnum enumSorted := by
  intro s
  have hco := enum_coe_val s
  have hnd : (enumSorted s).Nodup := by
    have h := s.nodup
    rw [← hco] at h
    exact h
  refine ⟨hnd, ?_⟩
  apply Finset.ext
  intro a
  rw [List.mem_toFinset]
  have h : a ∈ (enumSorted s : Multiset String) ↔ a ∈ s.val := by rw [hco]
  simpa using h

theorem validEnumSortedRev : ValidEnum enumSortedRev := by
  intro s
  have h := validEnumSorted s
  refine ⟨List.nodup_reverse.mpr h.1, ?_⟩
  show ((enumSorted s).reverse).toFinset = s
  rw [List.toFinset_reverse]
  exact h.2

/-! ## Partition processing, checkpointing and merging -/

/-- One clinical note as read from a partition batch file; `report_text` is
`none` for a NaN value. -/
structure Note where
  person_id : Nat
  note_id : Nat
  note_date : Nat
  report_text : Option String
deriving Repr, DecidableEq

/-- One row of a partition result, as appended in `process_single_parquet`. -/
structure NoteRow where
  person_id : Nat
  note_id : Nat
  note_date : Nat
  aud_roots : List String
  aud_roots_count : Nat
  matched_sentences : List String
deriving Repr, DecidableEq

/-- The persisted content of one partition output file. -/
abbrev Artifact := List NoteRow

/-- The intermediate/results file system: an association of paths to file
contents, with at most one entry per path. -/
abbrev FS := List (String × Artifact)

/-- `os.path.exists` / reading a file: the content at a path, if present. -/
def fsLookup (fs : FS) (p : String) : Option Artifact :=
  (fs.find? (fun e => e.1 == p)).map Prod.snd

/-- Writing a file: replaces any previous content at the path. -/
def fsWrite (fs : FS) (p : String) (a : Artifact) : FS :=
  (p, a) :: fs.filter (fun e => e.1 != p)

/-- `intermediate_path` from the source. -/
def intermediate_path : String := "results/intermediate_keywords/"

/-- `results_path` from the source. -/
def results_path : String := "results/"

/-- The partition output path: `{intermediate_path}{file_name}_results.csv`,
where `file_name` is the basename of the directory containing the parquet
file. -/
def outputPathFor (file_name : String) : String :=
  intermediate_path ++ file_name ++ "_results.csv"

/-- Outcome of `process_single_parquet`: a processed count pair, the `SKIPPED`
marker, or an error string. -/
inductive PStatus where
  | processed (matched total : Nat)
  | skipped
  | failed (msg : String)
deriving Repr, DecidableEq

/-- The notes corpus: maps a `(directory-name, file-name)` pair to its parsed
notes, or to an error when `pd.read_parquet` (or row access) raises. -/
abbrev Inputs := String × String → Except String (List Note)

/-- The result row built for one note (fields of the dict appended to
`results`). -/
def noteRowOf (enum : SetEnum) (aud_patterns : List (Pattern × String))
    (n : Note) : NoteRow :=
  let o := process_note_text enum aud_patterns n.report_text
  ⟨n.person_id, n.note_id, n.note_date, o.aud_roots, o.aud_roots_count,
    o.matched_sentences⟩

/-- The per-note loop of `process_single_parquet`: classify every note and keep
a row exactly when `aud_roots_count > 0`. -/
def classifyNotes (enum : SetEnum) (aud_patterns : List (Pattern × String))
    (notes : List Note) : Artifact :=
  notes.filterMap (fun n =>
    if 0 < (process_note_text enum aud_patterns n.report_text).aud_roots_count
    then some (noteRowOf enum aud_patterns n)
    else none)

/-- The persistence step of `process_single_parquet` is a plain
`results_df.to_csv(output_file)`: a direct write to the canonical path.
`crash = none` is a completed write; `crash = some k` models the process dying
after only `k` rows have reached the file, leaving the truncation in place. -/
def writeDirectCrash (fs : FS) (p : String) (content : Artifact)
    (crash : Option Nat) : FS :=
  match crash with
  | none => fsWrite fs p content
  | some k => fsWrite fs p (content.take k)

/-- `process_single_parquet` from the source.  Returns the status, the file
system after the call, and the number of input files read (`pd.read_parquet`
invocations). -/
def process_single_parquet (enum : SetEnum)
    (aud_patterns : List (Pattern × String)) (D : Inputs) (fs : FS)
    (file : String × String) : PStatus × FS × Nat :=
  let file_name := file.1
  let output_file := outputPathFor file_name
  if (fsLookup fs output_file).isSome then (.skipped, fs, 0)
  else
    match D file with
    | .error e => (.failed ("Error: " ++ e), fs, 1)
    | .ok notes =>
      let results := classifyNotes enum aud_patterns notes
      if results.isEmpty then (.processed 0 notes.length, fs, 1)
      else (.processed results.length notes.length,
        writeDirectCrash fs output_file results none, 1)

/-- The sequential corpus loop of the source: process every discovered parquet
file in order, collecting one status per file. -/
def run_corpus (enum : SetEnum) (aud_patterns : List (Pattern × String))
    (D : Inputs) (fs : FS) (files : List (String × String)) :
    FS × List (String × PStatus) :=
  files.foldl (fun acc f =>
    let r := process_single_parquet enum aud_patterns D acc.1 f
    (r.2.1, acc.2 ++ [(f.1, r.1)])) (fs, [])

/-- Does a path match the merge glob `{intermediate_path}*_results.csv`? -/
def isIntermediateArtifact (p : String) : Bool :=
  (p.data.take intermediate_path.data.length == intermediate_path.data) &&
    (decide ("_results.csv".data.length ≤ p.data.length) &&
      (p.data.drop (p.data.length - "_results.csv".data.length) ==
        "_results.csv".data))

/-- The final merged output path of the source. -/
def final_output_path : String := results_path ++ "aud_notes_keywords.csv"

/-- The merge section at the end of the source: glob all intermediate result
files; if none exist report failure (`none`) and leave the file system alone;
otherwise concatenate them and write the final results file. -/
def merge_results (fs : FS) : FS × Option Artifact :=
  let files := fs.filter (fun e => isIntermediateArtifact e.1)
  if files.isEmpty then (fs, none)
  else
    let final := (files.map Prod.snd).flatten
    (fsWrite fs final_output_path final, some final)

/-! ## Structured-code cohort filter (`Population_identified_ICD.py`) -/

/-- The fixed AUD ICD code list of the source (dots still present). -/
def AUD_ICD_raw : List String :=
  ["303.0", "303.01", "303.02", "303.03", "303.00", "303", "303.9", "303.91",
   "303.92", "303.93", "303.90",
   "305.0", "305.01", "305.02", "305.03", "305.00",
   "F10.1", "F10.180", "F10.14", "F10.15", "F10.150", "F10.151", "F10.159",
   "F10.181", "F10.182", "F10.12", "F10.121", "F10.120", "F10.129", "F10.188",
   "F10.18", "F10.19", "F10.131", "F10.132", "F10.130", "F10.139", "F10.11",
   "F10.10", "F10.13", "F10.2", "F10.280", "F10.24", "F10.26", "F10.27",
   "F10.25", "F10.250", "F10.251", "F10.259", "F10.281", "F10.282", "F10.22",
   "F10.221", "F10.220", "F10.229", "F10.288", "F10.28", "F10.29", "F10.23",
   "F10.231", "F10.232", "F10.230", "F10.239", "F10.21", "F10.20"]

/-- `REPLACE(s, '.', '')`. -/
def stripDots (s : String) : String :=
  String.mk (s.data.filter (fun c => c != '.'))

/-- `AUD_ICD = [code.replace('.', '') for code in AUD_ICD]`. -/
def AUD_ICD : List String := AUD_ICD_raw.map stripDots

/-- `RTRIM(s, '^')`. -/
def rtrimCaret (s : String) : String :=
  String.mk ((s.data.reverse.dropWhile (fun c => c == '^')).reverse)

/-- Split a character list on non-overlapping occurrences of `^^`, scanning
left to right. -/
def splitSS : List Char → List (List Char)
  | [] => [[]]
  | '^' :: '^' :: rest => [] :: splitSS rest
  | c :: rest =>
    match splitSS rest with
    | [] => [[c]]
    | t :: ts => (c :: t) :: ts

/-- `SPLIT_PART(s, '^^', 2)` (1-indexed; empty when there is no second part). -/
def splitPart2 (s : String) : String := String.mk ((splitSS s.data).getD 1 [])

/-- The `processed_code` column of the DuckDB query. -/
def processed_code (s : String) : String :=
  stripDots (rtrimCaret (splitPart2 s))

/-- One row of `r6263_condition_occurrence.csv` (the used columns). -/
structure CondOcc where
  person_id : Nat
  condition_source_value : Option String
  visit_occurrence_id : Nat
deriving Repr, DecidableEq

/-- One row of `r6263_visit_occurrence.csv` (the used columns). -/
structure VisitOcc where
  visit_occurrence_id : Nat
  visit_concept_id : Int
deriving Repr, DecidableEq

/-- One row of `aud_occurrence` after the merge with visit data;
`visit_concept_id` is `none` when the left join found no visit row. -/
structure JoinedRow where
  person_id : Nat
  visit_concept_id : Option Int
deriving Repr, DecidableEq

/-- The DuckDB filter: keep condition rows whose `condition_source_value` is
non-NULL and whose processed code is in the AUD list. -/
def aud_condition_rows (conds : List CondOcc) : List CondOcc :=
  conds.filter (fun c =>
    match c.condition_source_value with
    | none => false
    | some v => decide (processed_code v ∈ AUD_ICD))

/-- `aud_occurrence.merge(all_visit, on='visit_occurrence_id', how='left')`. -/
def joined_rows (conds : List CondOcc) (visits : List VisitOcc) :
    List JoinedRow :=
  (aud_condition_rows conds).flatMap (fun c =>
    let ms := visits.filter (fun v => v.visit_occurrence_id == c.visit_occurrence_id)
    if ms.isEmpty then [⟨c.person_id, none⟩]
    else ms.map (fun v => ⟨c.person_id, some v.visit_concept_id⟩))

/-- The visit categories assigned by `calculate_visit_counts`. -/
inductive VisitCat where
  | inpatient
  | outpatient
deriving Repr, DecidableEq

/-- The category lambda of `calculate_visit_counts`:
`'inpatient' if x in [9201] else 'outpatient' if x in [9202] else None`
(`None`/NaN rows are dropped by the subsequent `dropna`). -/
def visit_category (x : Option Int) : Option VisitCat :=
  match x with
  | some v =>
    if v = 9201 then some VisitCat.inpatient
    else if v = 9202 then some VisitCat.outpatient
    else none
  | none => none

/-- Rows surviving `dropna(subset=['visit_category'])`. -/
def categorized_rows (rows : List JoinedRow) : List JoinedRow :=
  rows.filter (fun r => (visit_category r.visit_concept_id).isSome)

/-- The `inpatient_count` column of `visit_counts` for one patient. -/
def inpatient_count (rows : List JoinedRow) (p : Nat) : Nat :=
  (rows.filter (fun r =>
    decide (r.person_id = p ∧
      visit_category r.visit_concept_id = some VisitCat.inpatient))).length

/-- The `outpatient_count` column of `visit_counts` for one patient. -/
def outpatient_count (rows : List JoinedRow) (p : Nat) : Nat :=
  (rows.filter (fun r =>
    decide (r.person_id = p ∧
      visit_category r.visit_concept_id = some VisitCat.outpatient))).length

/-- The patients of the `groupby`/`unstack` table: every person with at least
one categorized row, each listed once. -/
def patients (rows : List JoinedRow) : List Nat :=
  ((categorized_rows rows).map (fun r => r.person_id)).dedup

/-- `filter_patients_by_visits` from the source: keep patients with at least
one inpatient row or at least two outpatient rows. -/
def filter_patients_by_visits (rows : List JoinedRow) : List Nat :=
  (patients rows).filter (fun p =>
    decide (1 ≤ inpatient_count rows p ∨ 2 ≤ outpatient_count rows p))

/-- The whole structured-code pipeline: the person column of the saved
`aud_patients_ICD_AUD_rule.csv`. -/
def aud_cohort (conds : List CondOcc) (visits : List VisitOcc) : List Nat :=
  filter_patients_by_visits (joined_rows conds visits)

/-! ## Claims -/

/-- C1: the Sentence Classifier returns `(∅, false)` whenever any of the three
suppression patterns (negation, context, legal/administrative) matches the
sentence, regardless of the keyword patterns; otherwise its root set contains
exactly the roots of all keyword patterns matching the sentence (no early exit:
every matching pattern contributes its root), and `is_valid` holds iff that set
is non-empty. -/
theorem C1_sentence_classifier (aud_patterns : List (Pattern × String))
    (s : String) :
    ((negation_pattern s = true ∨ context_filter_pattern s = true ∨
        legal_admin_filter_pattern s = true) →
      check_sentence_for_keywords s aud_patterns negation_pattern
        context_filter_pattern legal_admin_filter_pattern = (∅, false)) ∧
    (negation_pattern s = false → context_filter_pattern s = false →
      legal_admin_filter_pattern s = false →
      ((∀ r : String,
          r ∈ (check_sentence_for_keywords s aud_patterns negation_pattern
            context_filter_pattern legal_admin_filter_pattern).1 ↔
            ∃ pr ∈ aud_patterns, pr.2 = r ∧ pr.1 s = true) ∧
        ((check_sentence_for_keywords s aud_patterns negation_pattern
            context_filter_pattern legal_admin_filter_pattern).2 = true ↔
          (check_sentence_for_keywords s aud_patterns negation_pattern
            context_filter_pattern legal_admin_filter_pattern).1.Nonempty))) := by
  constructor
  · intro h
    cases hn : negation_pattern s with
    | true => simp [check_sentence_for_keywords, hn]
    | false =>
      cases hc : context_filter_pattern s with
      | true => simp [check_sentence_for_keywords, hn, hc]
      | false =>
        cases hl : legal_admin_filter_pattern s with
        | true => simp [check_sentence_for_keywords, hn, hc, hl]
        | false => simp [hn, hc, hl] at h
  · intro hn hc hl
    simp only [check_sentence_for_keywords, hn, hc, hl, Bool.false_eq_true,
      if_false]
    constructor
    · intro r
      simp only [List.mem_toFinset, List.mem_map, List.mem_filter]
      constructor
      · rintro ⟨pr, ⟨hmem, hmatch⟩, hr⟩
        exact ⟨pr, hmem, hr, hmatch⟩
      · rintro ⟨pr, hmem, hr, hmatch⟩
        exact ⟨pr, ⟨hmem, hmatch⟩, hr⟩
    · rw [decide_eq_true_iff]
      exact Finset.card_pos

/-- Witness for C1: a negated sentence is suppressed despite containing a
keyword, and a clean sentence yields exactly its keyword root. -/
theorem C1_sentence_classifier_witness :
    check_sentence_for_keywords "patient denies heavy drinking"
        [(kwPat "heavy drinking", "heavy_drinking")] negation_pattern
        context_filter_pattern legal_admin_filter_pattern = (∅, false) ∧
    "heavy_drinking" ∈ (check_sentence_for_keywords
        "patient reports daily heavy drinking"
        [(kwPat "heavy drinking", "heavy_drinking")] negation_pattern
        context_filter_pattern legal_admin_filter_pattern).1 := by
  constructor
  · exact (C1_sentence_classifier _ _).1 (Or.inl (by decide))
  · exact (((C1_sentence_classifier
        [(kwPat "heavy drinking", "heavy_drinking")]
        "patient reports daily heavy drinking").2 (by decide) (by decide)
        (by decide)).1 "heavy_drinking").mpr
      ⟨(kwPat "heavy drinking", "heavy_drinking"), List.mem_singleton.mpr rfl,
        rfl, by decide⟩

theorem fsLookup_write_self (fs : FS) (p : String) (a : Artifact) :
    fsLookup (fsWrite fs p a) p = some a := by
  simp [fsLookup, fsWrite, List.find?_cons_of_pos]

/-- C3: when the partition's output artifact already exists at its computed
path, the Partition Processor returns `SKIPPED` immediately, reads no input at
all, and leaves the file system — in particular the persisted artifact —
unchanged. -/
theorem C3_skip_existing (enum : SetEnum)
    (aud_patterns : List (Pattern × String)) (D : Inputs) (fs : FS)
    (file : String × String) (a : Artifact)
    (h : fsLookup fs (outputPathFor file.1) = some a) :
    process_single_parquet enum aud_patterns D fs file =
      (PStatus.skipped, fs, 0) ∧
    fsLookup (process_single_parquet enum aud_patterns D fs file).2.1
      (outputPathFor file.1) = some a := by
  have h1 : process_single_parquet enum aud_patterns D fs file =
      (PStatus.skipped, fs, 0) := by
    unfold process_single_parquet
    simp [h]
  refine ⟨h1, ?_⟩
  rw [h1]
  exact h

/-- A concrete persisted row used in witnesses. -/
def rowA : NoteRow :=
  ⟨1, 101, 0, ["alcohol"], 1, ["patient reports alcohol abuse daily"]⟩

/-- A second concrete persisted row used in witnesses. -/
def rowB : NoteRow :=
  ⟨2, 202, 0, ["alcohol"], 1, ["heavy alcohol use observed this morning"]⟩

/-- A file system already holding the artifact of partition `d`. -/
def fsA : FS := [(outputPathFor "d", [rowA])]

/-- A corpus whose reads all fail; used where the input must not be read. -/
def inputsNone : Inputs := fun _ => .error "unused"

/-- Witness for C3: with the artifact of `d` present, processing any file of
`d` is skipped without reading and the artifact survives unchanged. -/
theorem C3_skip_existing_witness :
    process_single_parquet enumSorted [] inputsNone fsA ("d", "part-0") =
      (PStatus.skipped, fsA, 0) ∧
    fsLookup (process_single_parquet enumSorted [] inputsNone fsA
      ("d", "part-0")).2.1 (outputPathFor "d") = some [rowA] :=
  C3_skip_existing enumSorted [] inputsNone fsA ("d", "part-0") [rowA]
    (by decide)

/-- C2 counterexample: the persistence step of `process_single_parquet` is a
single direct `to_csv` to the canonical output path, so a crash mid-write (here
after 1 of 2 rows) leaves a file at the canonical path that is neither absent
nor the complete artifact — and a subsequent run even skips the partition as
already processed. -/
theorem C2_direct_write_counterexample :
    fsLookup (writeDirectCrash [] (outputPathFor "d") [rowA, rowB] (some 1))
        (outputPathFor "d") ≠ none ∧
    fsLookup (writeDirectCrash [] (outputPathFor "d") [rowA, rowB] (some 1))
        (outputPathFor "d") ≠ some [rowA, rowB] ∧
    (process_single_parquet enumSorted [] inputsNone
        (writeDirectCrash [] (outputPathFor "d") [rowA, rowB] (some 1))
        ("d", "part-0")).1 = PStatus.skipped := by
  refine ⟨by decide, by decide, by decide⟩

/-- C2 (amended): the Partition Processor persists a partition's results by a
single direct write to the canonical output path (no temp-then-rename): a
completed write leaves exactly the full artifact there, while a crash after
`k < n` rows leaves the `k`-row truncation — a partial file — at the canonical
path. -/
theorem C2_direct_write_amended (fs : FS) (name : String) (content : Artifact)
    (k : Nat) (hk : k < content.length) :
    fsLookup (writeDirectCrash fs (outputPathFor name) content none)
        (outputPathFor name) = some content ∧
    fsLookup (writeDirectCrash fs (outputPathFor name) content (some k))
        (outputPathFor name) = some (content.take k) ∧
    content.take k ≠ content := by
  refine ⟨fsLookup_write_self fs _ content, fsLookup_write_self fs _ _, ?_⟩
  intro hcontra
  have hlen := congrArg List.length hcontra
  rw [List.length_take] at hlen
  omega

/-- Witness for C2 (amended) at a concrete two-row artifact and crash point. -/
theorem C2_direct_write_amended_witness :
    fsLookup (writeDirectCrash [] (outputPathFor "d") [rowA, rowB] none)
        (outputPathFor "d") = some [rowA, rowB] ∧
    fsLookup (writeDirectCrash [] (outputPathFor "d") [rowA, rowB] (some 1))
        (outputPathFor "d") = some ([rowA, rowB].take 1) ∧
    ([rowA, rowB].take 1 : Artifact) ≠ [rowA, rowB] :=
  C2_direct_write_amended [] "d" [rowA, rowB] 1 (by decide)

/-- The first batch file's note of the two-file partition `d`. -/
def noteA : Note := ⟨1, 101, 0, some "patient reports alcohol abuse daily"⟩

/-- The second batch file's note of the two-file partition `d`; it matches a
keyword and is suppressed by nothing. -/
def noteB : Note := ⟨2, 202, 0, some "heavy alcohol use observed this morning"⟩

/-- A one-keyword registry for concrete runs. -/
def patsAB : List (Pattern × String) := [(kwPat "alcohol", "alcohol")]

/-- A corpus with one partition directory `d` holding two batch files. -/
def inputsTwo : Inputs := fun f =>
  if f = ("d", "part-0") then .ok [noteA]
  else if f = ("d", "part-1") then .ok [noteB]
  else .error "missing"

/-- C4: counterexample run showing that a partition directory with two batch
files loses data.  The output artifact is keyed by the containing directory
name, so after the first batch file of `d` is processed the second one is
skipped as "already processed" without ever being read: the persisted artifact
holds only the first file's row even though the second file's note matches a
keyword. -/
theorem C4_multifile_partition_bug :
    (run_corpus enumSorted patsAB inputsTwo []
        [("d", "part-0"), ("d", "part-1")]).2 =
      [("d", PStatus.processed 1 1), ("d", PStatus.skipped)] ∧
    fsLookup (run_corpus enumSorted patsAB inputsTwo []
        [("d", "part-0"), ("d", "part-1")]).1 (outputPathFor "d") =
      some [rowA] ∧
    (∀ row ∈ [rowA], row.note_id ≠ noteB.note_id) ∧
    0 < (process_note_text enumSorted patsAB noteB.report_text).aud_roots_count := by
  refine ⟨by decide, by decide, by decide, by decide⟩

theorem run_corpus_aux_len (enum : SetEnum)
    (aud_patterns : List (Pattern × String)) (D : Inputs) :
    ∀ (files : List (String × String)) (fs : FS)
      (acc : List (String × PStatus)),
      (files.foldl (fun acc f =>
        let r := process_single_parquet enum aud_patterns D acc.1 f
        (r.2.1, acc.2 ++ [(f.1, r.1)])) (fs, acc)).2.length =
        acc.length + files.length := by
  intro files
  induction files with
  | nil => intro fs acc; simp
  | cons f fl ih =>
    intro fs acc
    simp only [List.foldl_cons]
    rw [ih]
    simp only [List.length_append, List.length_cons, List.length_nil]
    omega

theorem fsLookup_none_iff (fs : FS) (p : String) :
    fsLookup fs p = none ↔ ∀ e ∈ fs, e.1 ≠ p := by
  unfold fsLookup
  rw [Option.map_eq_none', List.find?_eq_none]
  simp

/-- C5: an exception while loading a partition is caught: the Partition
Processor returns a `Failed` summary carrying the message without raising or
writing anything, the corpus loop still yields one status for every partition,
and every row of a merged result comes from some artifact at a path other than
the failed partition's output path. -/
theorem C5_partition_failure_isolated (enum : SetEnum)
    (aud_patterns : List (Pattern × String)) (D : Inputs) (fs : FS)
    (f : String × String) (e : String)
    (h1 : fsLookup fs (outputPathFor f.1) = none) (h2 : D f = .error e) :
    process_single_parquet enum aud_patterns D fs f =
      (PStatus.failed ("Error: " ++ e), fs, 1) ∧
    (∀ files : List (String × String),
      (run_corpus enum aud_patterns D fs files).2.length = files.length) ∧
    (∀ r ∈ (merge_results fs).2.getD [],
      ∃ q a, (q, a) ∈ fs ∧ q ≠ outputPathFor f.1 ∧ r ∈ a) := by
  refine ⟨?_, ?_, ?_⟩
  · unfold process_single_parquet
    simp [h1, h2]
  · intro files
    unfold run_corpus
    simpa using run_corpus_aux_len enum aud_patterns D files fs []
  · intro r hr
    by_cases hemp : (fs.filter (fun e => isIntermediateArtifact e.1)).isEmpty
    · simp [merge_results, hemp] at hr
    · simp only [merge_results, hemp, Bool.false_eq_true, if_false,
        Option.getD_some] at hr
      rw [List.mem_flatten] at hr
      obtain ⟨a, ha, hra⟩ := hr
      rw [List.mem_map] at ha
      obtain ⟨q, hq, hqa⟩ := ha
      have hqfs : q ∈ fs := List.mem_of_mem_filter hq
      refine ⟨q.1, q.2, by simpa using hqfs, ?_, hqa ▸ hra⟩
      exact (fsLookup_none_iff fs (outputPathFor f.1)).mp h1 q hqfs

/-- A corpus whose reads all fail with the message `boom`. -/
def inputsBoom : Inputs := fun _ => .error "boom"

/-- Witness for C5 at a concrete failing partition over an empty file
system. -/
theorem C5_partition_failure_isolated_witness :
    process_single_parquet enumSorted patsAB inputsBoom [] ("p1", "part-0") =
      (PStatus.failed "Error: boom", [], 1) ∧
    (∀ files : List (String × String),
      (run_corpus enumSorted patsAB inputsBoom [] files).2.length =
        files.length) ∧
    (∀ r ∈ (merge_results []).2.getD [],
      ∃ q a, (q, a) ∈ ([] : FS) ∧ q ≠ outputPathFor "p1" ∧ r ∈ a) :=
  C5_partition_failure_isolated enumSorted patsAB inputsBoom []
    ("p1", "part-0") "boom" rfl rfl

theorem count_eq_length (enum : SetEnum) (he : ValidEnum enum)
    (aud_patterns : List (Pattern × String)) (text : Option String) :
    (process_note_text enum aud_patterns text).aud_roots_count =
      (process_note_text enum aud_patterns text).aud_roots.length := by
  match text with
  | none => rfl
  | some t =>
    by_cases ht : t = ""
    · simp [process_note_text, ht]
    · simp only [process_note_text, if_neg ht]
      obtain ⟨hnd, hfin⟩ := he (noteScan aud_patterns t).1
      have h1 : (enum (noteScan aud_patterns t).1).toFinset.card =
          (enum (noteScan aud_patterns t).1).length :=
        List.toFinset_card_of_nodup hnd
      rw [hfin] at h1
      exact h1

/-- C6: for every classification, `aud_roots_count` equals the number of
elements of `aud_roots`, and a row is appended to the partition's results if
and only if `aud_roots_count > 0`. -/
theorem C6_count_invariant (enum : SetEnum) (he : ValidEnum enum)
    (aud_patterns : List (Pattern × String)) (text : Option String)
    (notes : List Note) :
    (process_note_text enum aud_patterns text).aud_roots_count =
      (process_note_text enum aud_patterns text).aud_roots.length ∧
    (∀ row ∈ classifyNotes enum aud_patterns notes, 0 < row.aud_roots_count) ∧
    (∀ n ∈ notes,
      (0 < (process_note_text enum aud_patterns n.report_text).aud_roots_count →
        noteRowOf enum aud_patterns n ∈ classifyNotes enum aud_patterns notes) ∧
      ((process_note_text enum aud_patterns n.report_text).aud_roots_count = 0 →
        noteRowOf enum aud_patterns n ∉
          classifyNotes enum aud_patterns notes)) := by
  refine ⟨count_eq_length enum he aud_patterns text, ?_, ?_⟩
  · intro row hrow
    rw [classifyNotes, List.mem_filterMap] at hrow
    obtain ⟨n, _, hsome⟩ := hrow
    split at hsome
    · cases hsome
      assumption
    · cases hsome
  · intro n hn
    constructor
    · intro hpos
      rw [classifyNotes, List.mem_filterMap]
      exact ⟨n, hn, by rw [if_pos hpos]⟩
    · intro h0 hmem
      rw [classifyNotes, List.mem_filterMap] at hmem
      obtain ⟨m, _, hsome⟩ := hmem
      split at hsome
      · have heq : noteRowOf enum aud_patterns m = noteRowOf enum aud_patterns n :=
          Option.some_injective _ hsome
        have hcm : (noteRowOf enum aud_patterns m).aud_roots_count =
            (noteRowOf enum aud_patterns n).aud_roots_count :=
          congrArg NoteRow.aud_roots_count heq
        have hm : (noteRowOf enum aud_patterns m).aud_roots_count =
            (process_note_text enum aud_patterns m.report_text).aud_roots_count :=
          rfl
        have hn2 : (noteRowOf enum aud_patterns n).aud_roots_count =
            (process_note_text enum aud_patterns n.report_text).aud_roots_count :=
          rfl
        omega
      · cases hsome

/-- Witness for C6 at a concrete note and registry. -/
theorem C6_count_invariant_witness :
    (process_note_text enumSorted patsAB
        (some "patient reports alcohol abuse daily")).aud_roots_count =
      (process_note_text enumSorted patsAB
        (some "patient reports alcohol abuse daily")).aud_roots.length ∧
    ∀ row ∈ classifyNotes enumSorted patsAB [noteA], 0 < row.aud_roots_count :=
  ⟨(C6_count_invariant enumSorted validEnumSorted patsAB
      (some "patient reports alcohol abuse daily") [noteA]).1,
    (C6_count_invariant enumSorted validEnumSorted patsAB
      (some "patient reports alcohol abuse daily") [noteA]).2.1⟩

theorem splitAux_no_sep (p : Char → Bool) :
    ∀ (l cur : List Char) (skipping : Bool), (∀ c ∈ cur, p c = false) →
      ∀ piece ∈ splitAux p l cur skipping, ∀ c ∈ piece, p c = false := by
  intro l
  induction l with
  | nil =>
    intro cur skipping hcur piece hpiece c hc
    simp only [splitAux, List.mem_singleton] at hpiece
    subst hpiece
    exact hcur c (List.mem_reverse.mp hc)
  | cons d cs ih =>
    intro cur skipping hcur piece hpiece c hc
    simp only [splitAux] at hpiece
    by_cases hd : p d
    · rw [if_pos hd] at hpiece
      cases skipping with
      | true =>
        simp only [if_pos rfl] at hpiece
        exact ih [] true (by simp) piece hpiece c hc
      | false =>
        simp only [Bool.false_eq_true, if_false, List.mem_cons] at hpiece
        rcases hpiece with hpiece | hpiece
        · subst hpiece
          exact hcur c (List.mem_reverse.mp hc)
        · exact ih [] true (by simp) piece hpiece c hc
    · rw [if_neg hd] at hpiece
      refine ih (d :: cur) false ?_ piece hpiece c hc
      intro x hx
      rcases List.mem_cons.mp hx with hx | hx
      · subst hx
        simpa using hd
      · exact hcur x hx

theorem splitRuns_no_sep (p : Char → Bool) (l : List Char) :
    ∀ piece ∈ splitRuns p l, ∀ c ∈ piece, p c = false :=
  splitAux_no_sep p l [] false (by simp)

theorem pyStrip_sub (s : String) : ∀ c ∈ (pyStrip s).data, c ∈ s.data := by
  intro c hc
  have h1 : c ∈ ((s.data.dropWhile Char.isWhitespace).reverse.dropWhile
      Char.isWhitespace).reverse := hc
  rw [List.mem_reverse] at h1
  have h2 := (List.dropWhile_sublist Char.isWhitespace).subset h1
  rw [List.mem_reverse] at h2
  exact (List.dropWhile_sublist Char.isWhitespace).subset h2

theorem fold_snd_mem (aud_patterns : List (Pattern × String)) :
    ∀ (l : List String) (acc : Finset String × List String),
      ∀ s ∈ (l.foldl (noteStep aud_patterns) acc).2,
        s ∈ acc.2 ∨ ∃ r ∈ l, s = pyStrip r ∧ 10 ≤ s.length := by
  intro l
  induction l with
  | nil =>
    intro acc s hs
    exact Or.inl hs
  | cons r l' ih =>
    intro acc s hs
    rw [List.foldl_cons] at hs
    rcases ih (noteStep aud_patterns acc r) s hs with hmem | ⟨r', hr', heq, hlen⟩
    · unfold noteStep at hmem
      by_cases hg : pyStrip r = "" ∨ (pyStrip r).length < 10
      · rw [if_pos hg] at hmem
        exact Or.inl hmem
      · rw [if_neg hg] at hmem
        simp only [scanStep] at hmem
        split at hmem
        · simp only [List.mem_append, List.mem_singleton] at hmem
          rcases hmem with hmem | hmem
          · exact Or.inl hmem
          · subst hmem
            push_neg at hg
            refine Or.inr ⟨r, List.mem_cons_self r l', rfl, ?_⟩
            omega
        · exact Or.inl hmem
    · exact Or.inr ⟨r', List.mem_cons_of_mem r hr', heq, hlen⟩

theorem fold_filter_eq (aud_patterns : List (Pattern × String)) :
    ∀ (l : List String) (acc : Finset String × List String),
      l.foldl (noteStep aud_patterns) acc =
        ((l.map pyStrip).filter (fun s => decide (10 ≤ s.length))).foldl
          (scanStep aud_patterns) acc := by
  intro l
  induction l with
  | nil => intro acc; rfl
  | cons r l' ih =>
    intro acc
    rw [List.foldl_cons, List.map_cons, List.filter_cons]
    by_cases hk : 10 ≤ (pyStrip r).length
    · rw [if_pos (by simpa using hk), List.foldl_cons]
      have hg : ¬ (pyStrip r = "" ∨ (pyStrip r).length < 10) := by
        push_neg
        constructor
        · intro hemp
          rw [hemp] at hk
          simp at hk
        · omega
      rw [show noteStep aud_patterns acc r = scanStep aud_patterns acc (pyStrip r) by
        unfold noteStep
        rw [if_neg hg]]
      exact ih _
    · rw [if_neg (by simpa using hk)]
      have hg : pyStrip r = "" ∨ (pyStrip r).length < 10 := Or.inr (by omega)
      rw [show noteStep aud_patterns acc r = acc by
        unfold noteStep
        rw [if_pos hg]]
      exact ih _

/-- C7: the Note Classifier splits the text on runs of the terminator
characters `. ! ? ; : \n` (so matched sentences contain no terminator), each
kept sentence is the trim of one of the split pieces and has length at least
10, and the whole accumulation equals a fold over exactly the trimmed pieces of
length at least 10 — sentences trimming below 10 characters contribute nothing,
keyword or not. -/
theorem C7_sentence_split_threshold (enum : SetEnum)
    (aud_patterns : List (Pattern × String)) (t : String) :
    (∀ s ∈ (process_note_text enum aud_patterns (some t)).matched_sentences,
      10 ≤ s.length ∧ (∃ r ∈ sentencesOf t, s = pyStrip r) ∧
      ∀ c ∈ s.data, isTerm c = false) ∧
    noteScan aud_patterns t =
      (((sentencesOf t).map pyStrip).filter
        (fun s => decide (10 ≤ s.length))).foldl (scanStep aud_patterns)
        (∅, []) := by
  constructor
  · intro s hs
    by_cases ht : t = ""
    · simp [process_note_text, ht] at hs
    · simp only [process_note_text, if_neg ht] at hs
      rcases fold_snd_mem aud_patterns (sentencesOf t) (∅, []) s hs with
        hmem | ⟨r, hr, heq, hlen⟩
      · simp at hmem
      · refine ⟨hlen, ⟨r, hr, heq⟩, ?_⟩
        intro c hc
        have hcr : c ∈ r.data := by
          rw [heq] at hc
          exact pyStrip_sub r c hc
        rw [sentencesOf, List.mem_map] at hr
        obtain ⟨piece, hpiece, hrp⟩ := hr
        rw [← hrp] at hcr
        exact splitRuns_no_sep isTerm t.data piece hpiece c hcr
  · exact fold_filter_eq aud_patterns (sentencesOf t) (∅, [])

/-- Witness for C7: on a concrete note whose first fragment is short, the only
matched sentence is the long trimmed one, of length at least 10 and free of
terminators; the fold identity is instantiated at the same text. -/
theorem C7_sentence_split_threshold_witness :
    (∀ s ∈ (process_note_text enumSorted patsAB
        (some "ETOH. patient reports alcohol abuse daily")).matched_sentences,
      10 ≤ s.length ∧
        (∃ r ∈ sentencesOf "ETOH. patient reports alcohol abuse daily",
          s = pyStrip r) ∧
      ∀ c ∈ s.data, isTerm c = false) ∧
    noteScan patsAB "ETOH. patient reports alcohol abuse daily" =
      (((sentencesOf "ETOH. patient reports alcohol abuse daily").map
        pyStrip).filter (fun s => decide (10 ≤ s.length))).foldl
        (scanStep patsAB) (∅, []) :=
  C7_sentence_split_threshold enumSorted patsAB
    "ETOH. patient reports alcohol abuse daily"

/-- C8 counterexample: `aud_roots` is produced by `list(...)` applied to a
Python `set`, whose enumeration order is not a function of the set's contents
(it varies with interpreter hash state across runs).  Both enumerations below
are possible behaviours of `list` on a set — no duplicates, exactly the
elements — yet on the same note text and registry they produce different
element orders in `aud_roots`, refuting identical output across two runs. -/
theorem C8_set_order_counterexample :
    ValidEnum enumSorted ∧ ValidEnum enumSortedRev ∧
    process_note_text enumSorted
        [(kwPat "alcohol", "alcohol"), (kwPat "drinking", "drinking")]
        (some "patient reports alcohol and heavy drinking daily") ≠
      process_note_text enumSortedRev
        [(kwPat "alcohol", "alcohol"), (kwPat "drinking", "drinking")]
        (some "patient reports alcohol and heavy drinking daily") :=
  ⟨validEnumSorted, validEnumSortedRev, by decide⟩

/-- C8 (amended): the Note Classifier is deterministic up to the enumeration
order of the `aud_roots` set: for the same note text and registry, any two
runs (any two valid set enumerations) agree on the matched sentences and
their order, on `aud_roots_count`, and on the set of roots in `aud_roots`;
only the element order of `aud_roots` may differ between interpreter runs. -/
theorem C8_deterministic_up_to_root_order (e1 e2 : SetEnum)
    (h1 : ValidEnum e1) (h2 : ValidEnum e2)
    (aud_patterns : List (Pattern × String)) (text : Option String) :
    (process_note_text e1 aud_patterns text).matched_sentences =
      (process_note_text e2 aud_patterns text).matched_sentences ∧
    (process_note_text e1 aud_patterns text).aud_roots_count =
      (process_note_text e2 aud_patterns text).aud_roots_count ∧
    (process_note_text e1 aud_patterns text).aud_roots.toFinset =
      (process_note_text e2 aud_patterns text).aud_roots.toFinset := by
  cases text with
  | none => exact ⟨rfl, rfl, rfl⟩
  | some t =>
    by_cases ht : t = ""
    · simp [process_note_text, ht]
    · simp only [process_note_text, if_neg ht]
      refine ⟨by trivial, by trivial, ?_⟩
      rw [(h1 (noteScan aud_patterns t).1).2, (h2 (noteScan aud_patterns t).1).2]

/-- Witness for C8 (amended) at a concrete note and two concrete
enumerations. -/
theorem C8_deterministic_witness :
    (process_note_text enumSorted patsAB
        (some "patient reports alcohol abuse daily")).matched_sentences =
      (process_note_text enumSortedRev patsAB
        (some "patient reports alcohol abuse daily")).matched_sentences ∧
    (process_note_text enumSorted patsAB
        (some "patient reports alcohol abuse daily")).aud_roots_count =
      (process_note_text enumSortedRev patsAB
        (some "patient reports alcohol abuse daily")).aud_roots_count ∧
    (process_note_text enumSorted patsAB
        (some "patient reports alcohol abuse daily")).aud_roots.toFinset =
      (process_note_text enumSortedRev patsAB
        (some "patient reports alcohol abuse daily")).aud_roots.toFinset :=
  C8_deterministic_up_to_root_order enumSorted enumSortedRev validEnumSorted
    validEnumSortedRev patsAB (some "patient reports alcohol abuse daily")

theorem find?_filter_ne (fs : FS) (p q : String) (h : p ≠ q) :
    (fs.filter (fun e => e.1 != q)).find? (fun e => e.1 == p) =
      fs.find? (fun e => e.1 == p) := by
  induction fs with
  | nil => rfl
  | cons e fs ih =>
    rw [List.filter_cons]
    by_cases he : e.1 = q
    · have hnp : ¬ (e.1 == p) = true := by
        simp only [beq_iff_eq]
        exact fun hc => h (hc ▸ he)
      rw [if_neg (by simp [he]), List.find?_cons_of_neg fs hnp]
      exact ih
    · rw [if_pos (by simp [he])]
      by_cases hp : e.1 = p
      · have hpp : (e.1 == p) = true := by simp [hp]
        rw [List.find?_cons_of_pos (fs.filter (fun e => e.1 != q)) hpp,
          List.find?_cons_of_pos fs hpp]
      · have hnp : ¬ (e.1 == p) = true := by simp [hp]
        rw [List.find?_cons_of_neg (fs.filter (fun e => e.1 != q)) hnp,
          List.find?_cons_of_neg fs hnp]
        exact ih

theorem fsLookup_write_ne (fs : FS) (p q : String) (a : Artifact)
    (h : p ≠ q) : fsLookup (fsWrite fs q a) p = fsLookup fs p := by
  unfold fsLookup fsWrite
  have hnq : ¬ (((q, a) : String × Artifact).1 == p) = true := by
    simp only [beq_iff_eq]
    exact fun hc => h hc.symm
  rw [List.find?_cons_of_neg (fs.filter (fun e => e.1 != q)) hnq,
    find?_filter_ne fs p q h]

/-- C9: when no partition artifacts exist under the output directory, the
merge reports failure (no merged table, no final write) and leaves the file
system untouched; and in general a merge never modifies the content at any
intermediate-artifact path, so persisted artifacts stay available for a later
merge retry. -/
theorem C9_merge_empty (fs : FS)
    (h : fs.filter (fun e => isIntermediateArtifact e.1) = []) :
    (merge_results fs).2 = none ∧ (merge_results fs).1 = fs ∧
    ∀ (fs' : FS) (p : String), isIntermediateArtifact p = true →
      fsLookup (merge_results fs').1 p = fsLookup fs' p := by
  refine ⟨by simp [merge_results, h], by simp [merge_results, h], ?_⟩
  intro fs' p hp
  by_cases hemp : (fs'.filter (fun e => isIntermediateArtifact e.1)).isEmpty
  · simp [merge_results, hemp]
  · simp only [merge_results, hemp, Bool.false_eq_true, if_false]
    apply fsLookup_write_ne
    intro hpq
    have hfin : isIntermediateArtifact final_output_path = true := hpq ▸ hp
    exact absurd hfin (by decide)

/-- Witness for C9 on the empty file system. -/
theorem C9_merge_empty_witness :
    (merge_results []).2 = none ∧ (merge_results []).1 = [] ∧
    ∀ (fs' : FS) (p : String), isIntermediateArtifact p = true →
      fsLookup (merge_results fs').1 p = fsLookup fs' p :=
  C9_merge_empty [] rfl

theorem cat_inpatient_iff (x : Option Int) :
    visit_category x = some VisitCat.inpatient ↔ x = some 9201 := by
  cases x with
  | none => simp [visit_category]
  | some v =>
    by_cases h1 : v = 9201
    · simp [visit_category, h1]
    · by_cases h2 : v = 9202
      · simp [visit_category, h1, h2]
      · simp [visit_category, h1, h2]

theorem cat_outpatient_iff (x : Option Int) :
    visit_category x = some VisitCat.outpatient ↔ x = some 9202 := by
  cases x with
  | none => simp [visit_category]
  | some v =>
    by_cases h1 : v = 9201
    · simp [visit_category, h1]
    · by_cases h2 : v = 9202
      · simp [visit_category, h1, h2]
      · simp [visit_category, h1, h2]

theorem inpatient_count_eq (rows : List JoinedRow) (p : Nat) :
    inpatient_count rows p = (rows.filter (fun r =>
      decide (r.person_id = p ∧ r.visit_concept_id = some 9201))).length := by
  unfold inpatient_count
  congr 1
  apply List.filter_congr
  intro r _
  simp only [decide_eq_decide]
  constructor
  · rintro ⟨hp, hc⟩
    exact ⟨hp, (cat_inpatient_iff _).mp hc⟩
  · rintro ⟨hp, hc⟩
    exact ⟨hp, (cat_inpatient_iff _).mpr hc⟩

theorem outpatient_count_eq (rows : List JoinedRow) (p : Nat) :
    outpatient_count rows p = (rows.filter (fun r =>
      decide (r.person_id = p ∧ r.visit_concept_id = some 9202))).length := by
  unfold outpatient_count
  congr 1
  apply List.filter_congr
  intro r _
  simp only [decide_eq_decide]
  constructor
  · rintro ⟨hp, hc⟩
    exact ⟨hp, (cat_outpatient_iff _).mp hc⟩
  · rintro ⟨hp, hc⟩
    exact ⟨hp, (cat_outpatient_iff _).mpr hc⟩

theorem mem_patients_iff (rows : List JoinedRow) (p : Nat) :
    p ∈ patients rows ↔ ∃ r ∈ rows, r.person_id = p ∧
      (visit_category r.visit_concept_id).isSome := by
  unfold patients categorized_rows
  rw [List.mem_dedup, List.mem_map]
  constructor
  · rintro ⟨r, hr, hrp⟩
    rw [List.mem_filter] at hr
    exact ⟨r, hr.1, hrp, by simpa using hr.2⟩
  · rintro ⟨r, hr, hrp, hcat⟩
    exact ⟨r, List.mem_filter.mpr ⟨hr, by simpa using hcat⟩, hrp⟩

/-- C10: a patient is in the saved cohort iff, among the joined condition rows
matching the fixed AUD ICD code list, they have at least one row at an
inpatient visit (`visit_concept_id` 9201) or at least two rows at outpatient
visits (`visit_concept_id` 9202); rows with any other `visit_concept_id` —
including emergency-room 9203, which the function's docstring says counts as
inpatient — contribute to neither count. -/
theorem C10_visit_threshold (conds : List CondOcc) (visits : List VisitOcc)
    (p : Nat) :
    p ∈ aud_cohort conds visits ↔
      1 ≤ ((joined_rows conds visits).filter (fun r =>
        decide (r.person_id = p ∧ r.visit_concept_id = some 9201))).length ∨
      2 ≤ ((joined_rows conds visits).filter (fun r =>
        decide (r.person_id = p ∧ r.visit_concept_id = some 9202))).length := by
  unfold aud_cohort filter_patients_by_visits
  rw [List.mem_filter]
  simp only [decide_eq_true_eq]
  rw [inpatient_count_eq, outpatient_count_eq]
  constructor
  · rintro ⟨_, hth⟩
    exact hth
  · intro hth
    refine ⟨?_, hth⟩
    rcases hth with h1 | h2
    · obtain ⟨r, hr⟩ := List.length_pos_iff_exists_mem.mp
        (Nat.lt_of_lt_of_le Nat.zero_lt_one h1)
      rw [List.mem_filter] at hr
      obtain ⟨hrmem, hpred⟩ := hr
      simp only [decide_eq_true_eq] at hpred
      refine (mem_patients_iff _ p).mpr ⟨r, hrmem, hpred.1, ?_⟩
      rw [hpred.2]
      rfl
    · obtain ⟨r, hr⟩ := List.length_pos_iff_exists_mem.mp
        (Nat.lt_of_lt_of_le Nat.zero_lt_two h2)
      rw [List.mem_filter] at hr
      obtain ⟨hrmem, hpred⟩ := hr
      simp only [decide_eq_true_eq] at hpred
      refine (mem_patients_iff _ p).mpr ⟨r, hrmem, hpred.1, ?_⟩
      rw [hpred.2]
      rfl

/-- Concrete condition rows: patient 7 has two AUD rows at emergency-room
visits, patient 3 one AUD row at an inpatient visit, patient 5 a non-AUD
code. -/
def conds0 : List CondOcc :=
  [⟨7, some "ICD9^^303.00^", 70⟩, ⟨7, some "ICD9^^303.00^", 71⟩,
   ⟨3, some "ICD10^^F10.20^", 30⟩, ⟨3, none, 31⟩, ⟨5, some "ICD9^^999.9^", 50⟩]

/-- Concrete visit rows for `conds0`. -/
def visits0 : List VisitOcc := [⟨70, 9203⟩, ⟨71, 9203⟩, ⟨30, 9201⟩, ⟨50, 9202⟩]

/-- Witness for C10: patient 3 (one inpatient AUD row) is in the cohort;
patient 7, whose AUD rows are all at emergency-room visits (9203), is not —
ER rows count for neither threshold. -/
theorem C10_visit_threshold_witness :
    3 ∈ aud_cohort conds0 visits0 ∧ 7 ∉ aud_cohort conds0 visits0 := by
  constructor
  · exact (C10_visit_threshold conds0 visits0 3).mpr (Or.inl (by decide))
  · intro hmem
    have h := (C10_visit_threshold conds0 visits0 7).mp hmem
    revert h
    decide
